import Mathlib

/-!
Verification development for the corpus pipeline (lab_6_pipeline/pipeline.py).

The first half embeds the Corpus Store (`CorpusManager`): a directory of
raw-text files is modelled as a list of entries, the filesystem state at the
given path as `PathStatus`, and the constructor's validation/scan phases as
pure functions returning the raised error, if any, next to the resulting
object state.

The second half models the dependency-graph builder and the syntactic
pattern matcher of `PatternSearchPipeline`.  In the source these methods
(`_make_graphs`, `_add_children`, `_find_pattern`) are declared but their
bodies are stubs, so the definitions are modelled from the design spec
(sections 4.2 and 4.3) and are marked as such.
-/

namespace Pipeline

/-- Errors that construction of the corpus manager can signal.  The code
raises the Python builtins `FileNotFoundError` and `NotADirectoryError` and
its own `EmptyDirectoryError` and `InconsistentDatasetError`.  The
constructor `directoryNotFound` stands for the `DirectoryNotFoundError`
named by the spec; the code never raises it. -/
inductive CorpusError where
  | fileNotFound
  | directoryNotFound
  | notADirectory
  | emptyDirectory
  | inconsistentDataset
deriving DecidableEq

/-- One entry of the corpus directory.  Modelled from the spec: corpus files
follow a naming convention with an embedded positive integer ID and a fixed
suffix, and the external collaborator `get_article_id_from_filepath`
deterministically returns that ID.  `raw i c` is a file named `i_raw.txt`
holding text `c`; `other n` is any directory entry whose name does not match
the convention. -/
inductive DirEntry where
  | raw (id : Nat) (content : String)
  | other (name : String)
deriving DecidableEq

/-- A directory: its entries in directory (scan) order. -/
structure Dir where
  entries : List DirEntry
deriving DecidableEq

/-- Filename of a raw corpus file with embedded ID `i`. -/
def rawFileName (i : Nat) : String := toString i ++ "_raw.txt"

/-- Name of a directory entry. -/
def DirEntry.entryName : DirEntry → String
  | .raw i _ => rawFileName i
  | .other n => n

/-- The filesystem state at the path handed to the corpus manager. -/
inductive PathStatus where
  | missing
  | nonDirectory
  | dir (d : Dir)
deriving DecidableEq

/-- The raw-text files of a directory as pairs of embedded ID and content,
in directory order: the model of the glob over the naming convention
composed with the ID-extraction collaborator. -/
def rawFiles (d : Dir) : List (Nat × String) :=
  d.entries.filterMap fun e =>
    match e with
    | .raw i c => some (i, c)
    | .other _ => none

/-- Strict lexicographic comparison of two character lists by code point,
the order in which Python compares the underlying path strings. -/
def charListLt : List Char → List Char → Bool
  | [], [] => false
  | [], _ :: _ => true
  | _ :: _, [] => false
  | a :: as, b :: bs =>
    if a.toNat < b.toNat then true
    else if b.toNat < a.toNat then false
    else charListLt as bs

/-- Sort order used by the source's `sorted(...)` over the raw files: the
filenames compared lexicographically as strings (not by numeric ID). -/
def fileNameLe (a b : Nat × String) : Prop :=
  charListLt (rawFileName b.1).data (rawFileName a.1).data = false

instance : DecidableRel fileNameLe := fun _ _ => decEq _ _

/-- The validation loop of `CorpusManager._validate_dataset`: walk the
sorted raw files with a running index starting at 1 and fail with
`InconsistentDatasetError` as soon as the index differs from a file's
embedded ID or a file is zero-length. -/
def checkIds : Nat → List (Nat × String) → Except CorpusError Unit
  | _, [] => Except.ok ()
  | ind, f :: fs =>
    if ind ≠ f.1 ∨ f.2.length = 0 then Except.error CorpusError.inconsistentDataset
    else checkIds (ind + 1) fs

/-- `CorpusManager._validate_dataset`: missing path, non-directory path,
directory without any entry, then the ID/size checks over the raw files
sorted by filename. -/
def validateDataset : PathStatus → Except CorpusError Unit
  | .missing => Except.error CorpusError.fileNotFound
  | .nonDirectory => Except.error CorpusError.notADirectory
  | .dir d =>
    if d.entries.isEmpty then Except.error CorpusError.emptyDirectory
    else checkIds 1 (List.insertionSort fileNameLe (rawFiles d))

/-- The article record: `Article(url, article_id)` with the raw text
attached by `from_raw`.  Modelled from the spec's ArticleRecord (the
`Article` class itself lives in the external `core_utils` collaborator). -/
structure Article where
  url : Option String
  article_id : Nat
  text : String
deriving DecidableEq

/-- Modelled from the spec: the external `from_raw` collaborator loads the
file's raw text into the given article record. -/
def from_raw (content : String) (article : Article) : Article :=
  { article with text := content }

/-- `CorpusManager._scan_dataset`: register one article per raw file, keyed
by the embedded ID, in directory order. -/
def scanDataset (d : Dir) : List (Nat × Article) :=
  (rawFiles d).map fun f => (f.1, from_raw f.2 (Article.mk none f.1 ""))

/-- The scan applied to the validated path (it only ever runs on a
directory). -/
def scanPath : PathStatus → List (Nat × Article)
  | .dir d => scanDataset d
  | _ => []

/-- The corpus manager's state: the stored path and the ID-to-article
storage. -/
structure CorpusManager where
  path_to_raw_txt_data : PathStatus
  storage : List (Nat × Article)
deriving DecidableEq

/-- `CorpusManager.__init__`: the storage starts empty, `_validate_dataset`
runs first and any error it raises leaves the storage empty; only on
successful validation does `_scan_dataset` fill the storage.  The second
component is the raised error, if any. -/
def CorpusManager.construct (p : PathStatus) : CorpusManager × Option CorpusError :=
  let cm0 : CorpusManager := { path_to_raw_txt_data := p, storage := [] }
  match validateDataset p with
  | Except.error e => (cm0, some e)
  | Except.ok _ => ({ cm0 with storage := scanPath p }, none)

/-- `CorpusManager.get_articles`: returns the storage and leaves the
manager untouched. -/
def CorpusManager.get_articles (cm : CorpusManager) : CorpusManager × List (Nat × Article) :=
  (cm, cm.storage)

/-- A valid ten-article corpus: files `1_raw.txt` to `10_raw.txt`, all
non-empty. -/
def tenFileDir : Dir := Dir.mk ((List.range' 1 10).map fun i => DirEntry.raw i "text")

/-- Modelled from the spec (section 3, AnnotatedDocument): one token of an
annotated sentence, carrying its part-of-speech tag, its syntactic relation
label and the position of its head (0 for the sentence root).  The token's
own 1-based position is its index in the sentence plus one. -/
structure Token where
  upos : String
  deprel : String
  head : Nat
deriving DecidableEq

/-- A sentence of an annotated document. -/
abbrev Sentence := List Token

/-- An annotated document: its sentences in document order. -/
abbrev AnnotatedDocument := List Sentence

/-- A directed dependency edge from the head position to the dependent
position, labelled with the dependent's relation. -/
structure Edge where
  src : Nat
  dst : Nat
  deprel : String
deriving DecidableEq

/-- Modelled from the spec (section 3, SentenceGraph): a per-sentence
dependency graph as an explicit node table plus edge list.  Node `0` is the
synthetic root and carries no part-of-speech label. -/
structure SentenceGraph where
  nodes : List (Nat × Option String)
  edges : List Edge
deriving DecidableEq

/-- Modelled from the spec (section 3, MatchTree/TreeNode): a matched
subtree with the node's position in the sentence, its part-of-speech
payload and its matched children. -/
structure TreeNode where
  node_id : Nat
  payload : String
  children : List TreeNode

/-- Modelled from the spec (sections 3 and 6, PatternSpec): the fixed
pattern of root part of speech, optional dependency-relation constraint and
child part of speech. -/
structure PatternSpec where
  rootPos : String
  deprel : Option String
  childPos : String

/-- A sentence is well formed when every token's head is 0 or the position
of an existing token of the same sentence. -/
def sentenceWellFormed (s : Sentence) : Bool :=
  s.all fun t => t.head ≤ s.length

/-- Modelled from the spec (section 4.2): build the graph of one sentence —
one node per token plus the synthetic root node 0, and for each token one
edge from its head position to the token's own position, the edge labelled
with the token's relation and the node with its part-of-speech tag.  A
malformed sentence (some head out of range) yields no graph and is skipped.
-/
def makeGraph (s : Sentence) : Option SentenceGraph :=
  if sentenceWellFormed s then
    some
      { nodes := (0, none) :: s.enum.map (fun p => (p.1 + 1, some p.2.upos)),
        edges := s.enum.map fun p => Edge.mk p.2.head (p.1 + 1) p.2.deprel }
  else none

/-- Modelled from the spec (section 4.2, `_make_graphs`): one slot per
sentence in document order; a malformed sentence's slot is empty and the
builder continues with the next sentence. -/
def makeGraphs (doc : AnnotatedDocument) : List (Option SentenceGraph) :=
  doc.map makeGraph

/-- The sentence indices reported as skipped during graph construction. -/
def skippedSentences (doc : AnnotatedDocument) : List Nat :=
  doc.enum.filterMap fun p => if sentenceWellFormed p.2 then none else some p.1

/-- Label of node `i` in the graph's node table. -/
def nodeLabel (g : SentenceGraph) (i : Nat) : Option String :=
  match g.nodes.find? (fun p => p.1 == i) with
  | some p => p.2
  | none => none

/-- Modelled from the spec (section 4.3): an edge satisfies the child
constraint when its target's part of speech equals the pattern's child part
of speech and, when the pattern constrains the dependency relation, the
edge's relation equals it. -/
def edgeMatches (pat : PatternSpec) (g : SentenceGraph) (e : Edge) : Bool :=
  nodeLabel g e.dst == some pat.childPos &&
    match pat.deprel with
    | none => true
    | some r => e.deprel == r

/-- Modelled from the spec (section 4.3, `_add_children`): all direct
children of the root occurrence `rootId` that satisfy the child constraint,
in edge-list (token position) order, each as a leaf of the match tree. -/
def addChildren (pat : PatternSpec) (g : SentenceGraph) (rootId : Nat) : List TreeNode :=
  (g.edges.filter fun e => e.src == rootId && edgeMatches pat g e).map
    fun e => TreeNode.mk e.dst pat.childPos []

/-- Whether node entry `p` of the graph is a qualifying root occurrence:
its part of speech is the pattern's root part of speech and it has at least
one child satisfying the child constraint. -/
def isMatchRoot (pat : PatternSpec) (g : SentenceGraph) (p : Nat × Option String) : Bool :=
  p.2 == some pat.rootPos && !(addChildren pat g p.1).isEmpty

/-- Modelled from the spec (section 4.3): the matches of one sentence
graph — one match tree per qualifying root occurrence, in node traversal
(token position) order, holding all of the root's qualifying children. -/
def sentenceMatches (pat : PatternSpec) (g : SentenceGraph) : List TreeNode :=
  (g.nodes.filter (isMatchRoot pat g)).map fun p =>
    TreeNode.mk p.1 pat.rootPos (addChildren pat g p.1)

/-- Modelled from the spec (section 4.3, `_find_pattern`): the mapping from
0-based sentence index to that sentence's matches, with an entry only for
sentences having at least one match; skipped sentences (empty slots)
contribute nothing. -/
def findPattern (pat : PatternSpec) (docGraphs : List (Option SentenceGraph)) :
    List (Nat × List TreeNode) :=
  docGraphs.enum.filterMap fun p =>
    match p.2 with
    | none => none
    | some g =>
      let ms := sentenceMatches pat g
      if ms.isEmpty then none else some (p.1, ms)

/-- The matcher as a state transformer over the graph store: it reads the
graphs and returns them unchanged next to the match mapping (the spec's
no-mutation guarantee, section 8). -/
def runPatternSearch (pat : PatternSpec) (docGraphs : List (Option SentenceGraph)) :
    List (Option SentenceGraph) × List (Nat × List TreeNode) :=
  (docGraphs, findPattern pat docGraphs)

/-- The round-trip example sentence of the spec (section 8): a VERB root
with a NOUN dependent. -/
def exampleSentence : Sentence :=
  [Token.mk "VERB" "root" 0, Token.mk "NOUN" "nsubj" 1]

/-- The graph of the round-trip example sentence. -/
def exampleGraph : SentenceGraph :=
  { nodes := [(0, none), (1, some "VERB"), (2, some "NOUN")],
    edges := [Edge.mk 0 1 "root", Edge.mk 1 2 "nsubj"] }

/-- The VERB-NOUN pattern of the spec's round-trip example. -/
def examplePattern : PatternSpec := PatternSpec.mk "VERB" none "NOUN"

example : makeGraph exampleSentence = some exampleGraph := by rfl

example :
    sentenceMatches examplePattern exampleGraph =
      [TreeNode.mk 1 "VERB" [TreeNode.mk 2 "NOUN" []]] := by rfl

/-! ## Lemmas about the corpus store -/

/-- The validation loop accepts a file list exactly when the embedded IDs,
in list order, are the consecutive integers starting at the running index
and every file is non-empty. -/
theorem checkIds_ok_iff (fs : List (Nat × String)) (k : Nat) :
    checkIds k fs = Except.ok () ↔
      (fs.map Prod.fst = List.range' k fs.length ∧ ∀ f ∈ fs, f.2.length ≠ 0) := by
  induction fs generalizing k with
  | nil => simp [checkIds]
  | cons f fs ih =>
    by_cases h : k ≠ f.1 ∨ f.2.length = 0
    · have hne : checkIds k (f :: fs) = Except.error CorpusError.inconsistentDataset := by
        simp [checkIds, h]
      rw [hne]
      simp only [List.map_cons, List.length_cons, List.range'_succ]
      constructor
      · intro hc
        exact absurd hc (by simp)
      · rintro ⟨h1, h2⟩
        rcases h with h | h
        · exact (h (List.cons_eq_cons.mp h1).1.symm).elim
        · exact (h2 f (List.mem_cons_self f fs) h).elim
    · push_neg at h
      obtain ⟨hk, hlen⟩ := h
      have hstep : checkIds k (f :: fs) = checkIds (k + 1) fs := by
        simp [checkIds, hk, hlen]
      rw [hstep, ih]
      simp only [List.map_cons, List.length_cons, List.range'_succ]
      constructor
      · rintro ⟨h1, h2⟩
        refine ⟨by rw [h1, hk], fun g hg => ?_⟩
        rcases List.mem_cons.mp hg with rfl | hg
        · exact hlen
        · exact h2 g hg
      · rintro ⟨h1, h2⟩
        exact ⟨(List.cons_eq_cons.mp h1).2,
          fun g hg => h2 g (List.mem_cons_of_mem f hg)⟩

/-- The validation loop either accepts or fails with the dataset
inconsistency error; it raises nothing else. -/
theorem checkIds_ok_or_error (fs : List (Nat × String)) (k : Nat) :
    checkIds k fs = Except.ok () ∨
      checkIds k fs = Except.error CorpusError.inconsistentDataset := by
  induction fs generalizing k with
  | nil => exact Or.inl rfl
  | cons f fs ih =>
    by_cases h : k ≠ f.1 ∨ f.2.length = 0
    · right
      simp [checkIds, h]
    · have hstep : checkIds k (f :: fs) = checkIds (k + 1) fs := by
        simp [checkIds, h]
      rw [hstep]
      exact ih (k + 1)

/-- On a non-empty directory, validation is the ID/size check over the raw
files sorted by filename. -/
theorem validateDataset_dir (d : Dir) (hne : d.entries ≠ []) :
    validateDataset (PathStatus.dir d) =
      checkIds 1 (List.insertionSort fileNameLe (rawFiles d)) := by
  simp [validateDataset, List.isEmpty_iff, hne]

/-! ## The claims about the corpus store -/

/-- Claim C1 (code bug witnessed): the ten-file corpus with IDs 1..10 and
non-empty files is valid — its embedded IDs are a permutation of 1..10 and
every file is non-empty — yet construction raises
`InconsistentDatasetError` and stores nothing, because the source sorts the
files lexicographically by filename (placing `10_raw.txt` before
`1_raw.txt`) instead of by the numeric ID the spec prescribes. -/
theorem claim1_valid_ten_file_corpus_rejected :
    CorpusManager.construct (PathStatus.dir tenFileDir) =
      ({ path_to_raw_txt_data := PathStatus.dir tenFileDir, storage := [] },
        some CorpusError.inconsistentDataset)
    ∧ ((rawFiles tenFileDir).map Prod.fst).Perm
        (List.range' 1 (rawFiles tenFileDir).length)
    ∧ (∀ f ∈ rawFiles tenFileDir, f.2.length ≠ 0) := by
  refine ⟨by decide, by decide, by decide⟩

/-- Claim C2: whenever the multiset of embedded IDs is not exactly 1..N
(equivalently, the sorted ID sequence differs from 1..N) or some raw file
is zero-length, construction raises `InconsistentDatasetError` and the
storage stays empty, so no partially validated corpus is ever observable. -/
theorem claim2_inconsistent_corpus_raises_and_stays_empty (d : Dir)
    (h : ¬ ((rawFiles d).map Prod.fst).Perm (List.range' 1 (rawFiles d).length)
        ∨ ∃ f ∈ rawFiles d, f.2.length = 0) :
    CorpusManager.construct (PathStatus.dir d) =
      ({ path_to_raw_txt_data := PathStatus.dir d, storage := [] },
        some CorpusError.inconsistentDataset) := by
  have hne : d.entries ≠ [] := by
    intro hnil
    have hraw : rawFiles d = [] := by
      cases d
      simp_all [rawFiles]
    rcases h with h | ⟨f, hf, _⟩
    · rw [hraw] at h
      simp at h
    · rw [hraw] at hf
      simp at hf
  have hsorted := List.perm_insertionSort fileNameLe (rawFiles d)
  have hcheck :
      checkIds 1 (List.insertionSort fileNameLe (rawFiles d)) =
        Except.error CorpusError.inconsistentDataset := by
    rcases checkIds_ok_or_error (List.insertionSort fileNameLe (rawFiles d)) 1 with hok | herr
    · exfalso
      rw [checkIds_ok_iff] at hok
      obtain ⟨hids, hsz⟩ := hok
      rcases h with h | ⟨f, hf, hflen⟩
      · apply h
        have hlen : (List.insertionSort fileNameLe (rawFiles d)).length =
            (rawFiles d).length := List.length_insertionSort _ _
        have hperm : ((rawFiles d).map Prod.fst).Perm
            ((List.insertionSort fileNameLe (rawFiles d)).map Prod.fst) :=
          (hsorted.map Prod.fst).symm
        rw [hids, hlen] at hperm
        exact hperm
      · exact hsz f (hsorted.mem_iff.mpr hf) hflen
    · exact herr
  simp [CorpusManager.construct, validateDataset_dir d hne, hcheck]

/-- Witness for claim C2 at the spec's own example, IDs 1, 2, 4 with a gap
at 3. -/
theorem claim2_witness :
    CorpusManager.construct (PathStatus.dir (Dir.mk
        [DirEntry.raw 1 "a", DirEntry.raw 2 "b", DirEntry.raw 4 "c"])) =
      ({ path_to_raw_txt_data := PathStatus.dir (Dir.mk
          [DirEntry.raw 1 "a", DirEntry.raw 2 "b", DirEntry.raw 4 "c"]), storage := [] },
        some CorpusError.inconsistentDataset) :=
  claim2_inconsistent_corpus_raises_and_stays_empty _ (Or.inl (by decide))

/-- Claim C3 is refuted at two concrete inputs: a missing path raises
`FileNotFoundError`, not the `DirectoryNotFoundError` the claim names, and
a directory whose only entry does not match the naming convention raises
nothing at all instead of `EmptyDirectoryError`. -/
theorem claim3_counterexample :
    (CorpusManager.construct PathStatus.missing).2 = some CorpusError.fileNotFound
    ∧ some CorpusError.fileNotFound ≠ some CorpusError.directoryNotFound
    ∧ (CorpusManager.construct (PathStatus.dir
        (Dir.mk [DirEntry.other "notes.txt"]))).2 = none := by
  refine ⟨by decide, by decide, by decide⟩

/-- Claim C3 as amended: a missing path raises `FileNotFoundError`, an
existing non-directory path raises `NotADirectoryError`, a directory with
no entries at all raises `EmptyDirectoryError`, and a non-empty directory
without any file matching the naming convention raises nothing and yields
an empty storage. -/
theorem claim3_amended_error_taxonomy (d : Dir) :
    (CorpusManager.construct PathStatus.missing).2 = some CorpusError.fileNotFound
    ∧ (CorpusManager.construct PathStatus.nonDirectory).2 = some CorpusError.notADirectory
    ∧ (d.entries = [] →
        (CorpusManager.construct (PathStatus.dir d)).2 = some CorpusError.emptyDirectory)
    ∧ (d.entries ≠ [] → rawFiles d = [] →
        CorpusManager.construct (PathStatus.dir d) =
          ({ path_to_raw_txt_data := PathStatus.dir d, storage := [] }, none)) := by
  refine ⟨rfl, rfl, ?_, ?_⟩
  · intro h
    cases d
    subst h
    decide
  · intro h1 h2
    simp [CorpusManager.construct, validateDataset_dir d h1, h2,
      List.insertionSort, checkIds, scanPath, scanDataset]

/-- Witness for claim C3 as amended: a directory holding one non-matching
file constructs successfully with empty storage. -/
theorem claim3_witness :
    CorpusManager.construct (PathStatus.dir (Dir.mk [DirEntry.other "x.txt"])) =
      ({ path_to_raw_txt_data := PathStatus.dir (Dir.mk [DirEntry.other "x.txt"]),
          storage := [] }, none) :=
  (claim3_amended_error_taxonomy (Dir.mk [DirEntry.other "x.txt"])).2.2.2
    (by decide) (by decide)

/-- Claim C9: `get_articles` always returns the manager's storage, leaves
the manager unchanged, and a repeated call returns the same mapping, so the
index is read-only after construction. -/
theorem claim9_get_articles_readonly (cm : CorpusManager) :
    CorpusManager.get_articles cm = (cm, cm.storage)
    ∧ (CorpusManager.get_articles (CorpusManager.get_articles cm).1).2 =
        (CorpusManager.get_articles cm).2 :=
  ⟨rfl, rfl⟩

/-- Claim C10: every entry of the mapping exposed by `get_articles` after
construction stores under key `k` an article whose own ID is `k`. -/
theorem claim10_storage_key_matches_article_id (p : PathStatus) (k : Nat) (a : Article)
    (h : (k, a) ∈ ((CorpusManager.construct p).1.get_articles).2) :
    a.article_id = k := by
  have hstor : ((CorpusManager.construct p).1).storage = [] ∨
      ((CorpusManager.construct p).1).storage = scanPath p := by
    rcases hv : validateDataset p with e | u
    · left
      simp [CorpusManager.construct, hv]
    · right
      simp [CorpusManager.construct, hv]
  simp only [CorpusManager.get_articles] at h
  rcases hstor with hs | hs <;> rw [hs] at h
  · simp at h
  · cases p with
    | dir d =>
      simp only [scanPath, scanDataset, List.mem_map] at h
      obtain ⟨f, hf, heq⟩ := h
      injection heq with h1 h2
      rw [← h2]
      simpa [from_raw] using h1
    | missing => simp [scanPath] at h
    | nonDirectory => simp [scanPath] at h

/-- Witness for claim C10 on a one-file corpus. -/
theorem claim10_witness : (Article.mk none 1 "hello").article_id = 1 :=
  claim10_storage_key_matches_article_id
    (PathStatus.dir (Dir.mk [DirEntry.raw 1 "hello"])) 1 (Article.mk none 1 "hello")
    (by decide)

/-! ## Lemmas about graph construction and matching -/

/-- `enum` is `enumFrom` starting at 0. -/
theorem enum_eq_enumFrom {α : Type _} (l : List α) : l.enum = List.enumFrom 0 l := rfl

/-- Indexing into a mapped enumeration. -/
theorem enumFrom_map_getElem? {α β : Type _} (f : Nat × α → β) (l : List α) (st j : Nat) :
    ((List.enumFrom st l).map f)[j]? = l[j]?.map fun a => f (st + j, a) := by
  induction l generalizing st j with
  | nil => simp
  | cons x xs ih =>
    cases j with
    | zero => simp [List.enumFrom_cons]
    | succ j =>
      have harith : st + 1 + j = st + (j + 1) := by omega
      simp [List.enumFrom_cons, ih (st + 1) j, harith]

/-- The edge targets of a sentence's edge list are the consecutive token
positions. -/
theorem enumFrom_map_dst (ts : List Token) (st : Nat) :
    (((List.enumFrom st ts).map fun p => Edge.mk p.2.head (p.1 + 1) p.2.deprel).map Edge.dst) =
      List.range' (st + 1) ts.length := by
  induction ts generalizing st with
  | nil => simp
  | cons t ts ih => simp [List.enumFrom_cons, List.range'_succ, ih (st + 1)]

/-- The node identifiers of a sentence's token nodes are the consecutive
token positions. -/
theorem enumFrom_map_node_fst (ts : List Token) (st : Nat) :
    (((List.enumFrom st ts).map fun p => (p.1 + 1, some p.2.upos)).map Prod.fst) =
      List.range' (st + 1) ts.length := by
  induction ts generalizing st with
  | nil => simp
  | cons t ts ih => simp [List.enumFrom_cons, List.range'_succ, ih (st + 1)]

/-- Each target position receives exactly one edge; positions outside the
sentence receive none. -/
theorem edges_filter_dst (ts : List Token) (st k : Nat) :
    (((List.enumFrom st ts).map fun p => Edge.mk p.2.head (p.1 + 1) p.2.deprel).filter
        (fun e => e.dst == k)).length =
      if st + 1 ≤ k ∧ k ≤ st + ts.length then 1 else 0 := by
  induction ts generalizing st with
  | nil =>
    rw [if_neg (by simp only [List.length_nil]; omega)]
    rfl
  | cons t ts ih =>
    rw [List.enumFrom_cons, List.map_cons, List.filter_cons]
    by_cases hk : st + 1 = k
    · rw [if_pos (by simp [hk])]
      simp only [List.length_cons, ih (st + 1)]
      split_ifs <;> omega
    · rw [if_neg (by simp [hk])]
      rw [ih (st + 1)]
      simp only [List.length_cons]
      split_ifs <;> omega

/-- The slot of sentence `i` in the builder's output holds the graph of
sentence `i`. -/
theorem makeGraphs_getElem? (doc : AnnotatedDocument) (i : Nat) (hi : i < doc.length) :
    (makeGraphs doc)[i]? = some (makeGraph (doc.get ⟨i, hi⟩)) := by
  simp [makeGraphs, List.getElem?_eq_getElem, hi, List.get_eq_getElem]

/-- On a well-formed sentence the builder produces the node table and edge
list of the spec. -/
theorem makeGraph_eq_some (s : Sentence) (hs : sentenceWellFormed s = true) :
    makeGraph s = some
      { nodes := (0, none) :: s.enum.map (fun p => (p.1 + 1, some p.2.upos)),
        edges := s.enum.map fun p => Edge.mk p.2.head (p.1 + 1) p.2.deprel } := by
  simp [makeGraph, hs]

/-- On a malformed sentence the builder produces no graph. -/
theorem makeGraph_eq_none (s : Sentence) (hs : sentenceWellFormed s = false) :
    makeGraph s = none := by
  simp [makeGraph, hs]

/-- Node identifiers of a built graph are strictly increasing. -/
theorem makeGraph_nodes_sorted (s : Sentence) (g : SentenceGraph)
    (hg : makeGraph s = some g) : (g.nodes.map Prod.fst).Pairwise (· < ·) := by
  cases hb : sentenceWellFormed s with
  | false =>
    rw [makeGraph_eq_none s hb] at hg
    exact absurd hg (by simp)
  | true =>
    rw [makeGraph_eq_some s hb] at hg
    obtain rfl := Option.some.inj hg
    show (((0, (none : Option String)) ::
        s.enum.map (fun p => (p.1 + 1, some p.2.upos))).map Prod.fst).Pairwise (· < ·)
    rw [List.map_cons]
    dsimp only
    rw [enum_eq_enumFrom, enumFrom_map_node_fst s 0, List.pairwise_cons]
    refine ⟨fun b hb' => ?_, List.pairwise_lt_range' (0 + 1) s.length⟩
    have := List.mem_range'_1.mp hb'
    omega

/-- Edge targets of a built graph are strictly increasing. -/
theorem makeGraph_edges_sorted (s : Sentence) (g : SentenceGraph)
    (hg : makeGraph s = some g) : (g.edges.map Edge.dst).Pairwise (· < ·) := by
  cases hb : sentenceWellFormed s with
  | false =>
    rw [makeGraph_eq_none s hb] at hg
    exact absurd hg (by simp)
  | true =>
    rw [makeGraph_eq_some s hb] at hg
    obtain rfl := Option.some.inj hg
    show ((s.enum.map fun p =>
        Edge.mk p.2.head (p.1 + 1) p.2.deprel).map Edge.dst).Pairwise (· < ·)
    rw [enum_eq_enumFrom, enumFrom_map_dst s 0]
    exact List.pairwise_lt_range' (0 + 1) s.length

/-- Membership in the match mapping: an entry exists for index `i` exactly
when slot `i` holds a graph whose match list is the entry's non-empty
value. -/
theorem mem_findPattern_iff (pat : PatternSpec) (dgs : List (Option SentenceGraph))
    (i : Nat) (ms : List TreeNode) :
    (i, ms) ∈ findPattern pat dgs ↔
      ∃ g, dgs[i]? = some (some g) ∧ ms = sentenceMatches pat g ∧ ms ≠ [] := by
  unfold findPattern
  rw [List.mem_filterMap]
  constructor
  · rintro ⟨⟨j, og⟩, hmem, hf⟩
    rw [List.mem_enum_iff_getElem?] at hmem
    cases og with
    | none => exact absurd hf (by simp)
    | some g =>
      dsimp only at hf
      by_cases he : (sentenceMatches pat g).isEmpty = true
      · rw [if_pos he] at hf
        exact absurd hf (by simp)
      · rw [if_neg he] at hf
        have h2 := Option.some.inj hf
        have hji : j = i := congrArg Prod.fst h2
        have hms : sentenceMatches pat g = ms := congrArg Prod.snd h2
        subst hji
        refine ⟨g, hmem, hms.symm, ?_⟩
        rw [← hms]
        intro hnil
        exact he (by simp [hnil])
  · rintro ⟨g, hg, rfl, hne⟩
    refine ⟨(i, some g), List.mem_enum_iff_getElem?.mpr hg, ?_⟩
    have he : ¬((sentenceMatches pat g).isEmpty = true) := by
      rw [List.isEmpty_iff]
      exact hne
    dsimp only
    rw [if_neg he]

/-- In a node table with distinct identifiers, filtering for the key of a
member that satisfies the predicate returns exactly that member. -/
theorem filter_key_of_nodup (l : List (Nat × Option String))
    (pr : Nat × Option String → Bool) (p : Nat × Option String)
    (hnd : (l.map Prod.fst).Nodup) (hp : p ∈ l) (hpr : pr p = true) :
    l.filter (fun q => (q.1 == p.1) && pr q) = [p] := by
  induction l with
  | nil => exact absurd hp (List.not_mem_nil p)
  | cons x xs ih =>
    simp only [List.map_cons, List.nodup_cons] at hnd
    obtain ⟨hx, hnd'⟩ := hnd
    rcases List.mem_cons.mp hp with rfl | hp'
    · rw [List.filter_cons, if_pos (by simp [hpr])]
      have hnil : xs.filter (fun q => (q.1 == p.1) && pr q) = [] := by
        rw [List.filter_eq_nil_iff]
        intro q hq
        simp only [Bool.and_eq_true, beq_iff_eq, not_and]
        intro hq1 _
        exact hx (hq1 ▸ List.mem_map_of_mem Prod.fst hq)
      rw [hnil]
    · have hx1 : (x.1 == p.1) = false := by
        rw [beq_eq_false_iff_ne]
        intro he
        exact hx (he ▸ List.mem_map_of_mem Prod.fst hp')
      rw [List.filter_cons, if_neg (by simp [hx1])]
      exact ih hnd' hp'

/-! ## The claims about graph construction and pattern search -/

/-- Claim C4 is refuted at a concrete input: for the one-sentence document
whose only token has the out-of-range head 5, the builder produces zero
graphs, not one per sentence, because the malformed sentence is skipped. -/
theorem claim4_counterexample :
    ((makeGraphs [[Token.mk "NOUN" "nsubj" 5]]).filterMap id).length = 0
    ∧ ([[Token.mk "NOUN" "nsubj" 5]] : AnnotatedDocument).length = 1 :=
  ⟨rfl, rfl⟩

/-- Claim C4 as amended: for a document all of whose sentences are well
formed, the builder yields one graph per sentence in document order; each
graph has one node per token plus the synthetic root node 0, node `j + 1`
carries token `j`'s part of speech, edge `j` runs from token `j`'s head to
its own position `j + 1` labelled with its relation, every non-root node
has exactly one incoming edge and the root has none. -/
theorem claim4_amended_graph_builder (doc : AnnotatedDocument)
    (h : ∀ s ∈ doc, sentenceWellFormed s = true) :
    (makeGraphs doc).length = doc.length
    ∧ ∀ i (hi : i < doc.length), ∃ g : SentenceGraph,
        (makeGraphs doc)[i]? = some (some g)
        ∧ g.nodes.length = (doc.get ⟨i, hi⟩).length + 1
        ∧ g.nodes[0]? = some (0, none)
        ∧ (∀ j (hj : j < (doc.get ⟨i, hi⟩).length),
            g.nodes[j + 1]? = some (j + 1, some ((doc.get ⟨i, hi⟩).get ⟨j, hj⟩).upos)
            ∧ g.edges[j]? = some (Edge.mk ((doc.get ⟨i, hi⟩).get ⟨j, hj⟩).head (j + 1)
                ((doc.get ⟨i, hi⟩).get ⟨j, hj⟩).deprel))
        ∧ (∀ k, 1 ≤ k → k ≤ (doc.get ⟨i, hi⟩).length →
            (g.edges.filter fun e => e.dst == k).length = 1)
        ∧ (g.edges.filter fun e => e.dst == 0) = [] := by
  constructor
  · simp [makeGraphs]
  · intro i hi
    have hwf : sentenceWellFormed (doc.get ⟨i, hi⟩) = true :=
      h (doc.get ⟨i, hi⟩) (List.get_mem doc i hi)
    refine ⟨SentenceGraph.mk
        ((0, none) :: (doc.get ⟨i, hi⟩).enum.map (fun p => (p.1 + 1, some p.2.upos)))
        ((doc.get ⟨i, hi⟩).enum.map (fun p => Edge.mk p.2.head (p.1 + 1) p.2.deprel)),
      ?_, ?_, ?_, ?_, ?_, ?_⟩
    · rw [makeGraphs_getElem? doc i hi, makeGraph_eq_some _ hwf]
    · show ((0, (none : Option String)) :: _).length = _
      simp [List.enum_length]
    · show ((0, (none : Option String)) ::
          (doc.get ⟨i, hi⟩).enum.map (fun p => (p.1 + 1, some p.2.upos)))[0]? = _
      rw [List.getElem?_cons_zero]
    · intro j hj
      constructor
      · show ((0, (none : Option String)) ::
            (doc.get ⟨i, hi⟩).enum.map (fun p => (p.1 + 1, some p.2.upos)))[j + 1]? = _
        rw [List.getElem?_cons_succ, enum_eq_enumFrom, enumFrom_map_getElem?,
          List.getElem?_eq_getElem hj]
        simp [List.get_eq_getElem]
      · show ((doc.get ⟨i, hi⟩).enum.map
            (fun p => Edge.mk p.2.head (p.1 + 1) p.2.deprel))[j]? = _
        rw [enum_eq_enumFrom, enumFrom_map_getElem?, List.getElem?_eq_getElem hj]
        simp [List.get_eq_getElem]
    · intro k h1 h2
      show (((doc.get ⟨i, hi⟩).enum.map fun p =>
          Edge.mk p.2.head (p.1 + 1) p.2.deprel).filter (fun e => e.dst == k)).length = 1
      rw [enum_eq_enumFrom, edges_filter_dst, if_pos (by omega)]
    · show (((doc.get ⟨i, hi⟩).enum.map fun p =>
          Edge.mk p.2.head (p.1 + 1) p.2.deprel).filter (fun e => e.dst == 0)) = []
      rw [← List.length_eq_zero, enum_eq_enumFrom, edges_filter_dst,
        if_neg (by omega)]

/-- Witness for claim C4 as amended on the one-sentence example document. -/
theorem claim4_witness :
    (makeGraphs [exampleSentence]).length = ([exampleSentence] : AnnotatedDocument).length :=
  (claim4_amended_graph_builder [exampleSentence] (by decide)).1

/-- Claim C5: entries of the match mapping exist exactly for sentences with
at least one match and hold that sentence's matches; each qualifying root
occurrence yields exactly one match tree holding all of the root's
qualifying children; and match trees are exactly two levels deep. -/
theorem claim5_pattern_matcher_matches (pat : PatternSpec) (gs : List SentenceGraph)
    (hnd : ∀ g ∈ gs, (g.nodes.map Prod.fst).Nodup) :
    (∀ i ms, (i, ms) ∈ findPattern pat (gs.map some) →
        ∃ hi : i < gs.length, ms = sentenceMatches pat (gs.get ⟨i, hi⟩) ∧ ms ≠ [])
    ∧ (∀ i (hi : i < gs.length), sentenceMatches pat (gs.get ⟨i, hi⟩) ≠ [] →
        (i, sentenceMatches pat (gs.get ⟨i, hi⟩)) ∈ findPattern pat (gs.map some))
    ∧ (∀ g ∈ gs, ∀ p ∈ g.nodes, p.2 = some pat.rootPos →
        addChildren pat g p.1 ≠ [] →
        (sentenceMatches pat g).filter (fun m => m.node_id == p.1) =
          [TreeNode.mk p.1 pat.rootPos (addChildren pat g p.1)])
    ∧ (∀ g ∈ gs, ∀ m ∈ sentenceMatches pat g, ∀ e ∈ g.edges,
        e.src = m.node_id → edgeMatches pat g e = true →
        TreeNode.mk e.dst pat.childPos [] ∈ m.children)
    ∧ (∀ g ∈ gs, ∀ m ∈ sentenceMatches pat g, ∀ c ∈ m.children, c.children = []) := by
  refine ⟨?_, ?_, ?_, ?_, ?_⟩
  · intro i ms hmem
    rw [mem_findPattern_iff] at hmem
    obtain ⟨g, hg, hms, hne⟩ := hmem
    rw [List.getElem?_map] at hg
    cases hgi : gs[i]? with
    | none =>
      rw [hgi] at hg
      exact absurd hg (by simp)
    | some g0 =>
      rw [hgi] at hg
      have hg0 : g0 = g := by
        have := Option.some.inj hg
        exact Option.some.inj this
      obtain ⟨hi, hget⟩ := List.getElem?_eq_some.mp hgi
      refine ⟨hi, ?_, hne⟩
      rw [List.get_eq_getElem, hget, hg0]
      exact hms
  · intro i hi hne
    rw [mem_findPattern_iff]
    refine ⟨gs.get ⟨i, hi⟩, ?_, rfl, hne⟩
    rw [List.getElem?_map]
    simp [List.getElem?_eq_getElem hi, List.get_eq_getElem]
  · intro g hgmem p hp hp2 hch
    have hroot : isMatchRoot pat g p = true := by
      simp only [isMatchRoot, Bool.and_eq_true, beq_iff_eq, Bool.not_eq_true']
      exact ⟨hp2, by rw [← Bool.not_eq_true, List.isEmpty_iff]; exact hch⟩
    show ((g.nodes.filter (isMatchRoot pat g)).map fun q =>
        TreeNode.mk q.1 pat.rootPos (addChildren pat g q.1)).filter
          (fun m => m.node_id == p.1) = _
    rw [List.filter_map]
    have hcomp : ((fun m => m.node_id == p.1) ∘ fun q : Nat × Option String =>
        TreeNode.mk q.1 pat.rootPos (addChildren pat g q.1)) = fun q => q.1 == p.1 := rfl
    rw [hcomp, List.filter_filter,
      filter_key_of_nodup g.nodes (isMatchRoot pat g) p (hnd g hgmem) hp hroot]
    rfl
  · intro g hgmem m hm e he hsrc hmatch
    rw [show sentenceMatches pat g = (g.nodes.filter (isMatchRoot pat g)).map
        (fun q => TreeNode.mk q.1 pat.rootPos (addChildren pat g q.1)) from rfl,
      List.mem_map] at hm
    obtain ⟨q, hq, rfl⟩ := hm
    show TreeNode.mk e.dst pat.childPos [] ∈ addChildren pat g q.1
    apply List.mem_map_of_mem
    rw [List.mem_filter]
    refine ⟨he, ?_⟩
    rw [Bool.and_eq_true]
    exact ⟨by rw [beq_iff_eq]; exact hsrc, hmatch⟩
  · intro g hgmem m hm c hc
    rw [show sentenceMatches pat g = (g.nodes.filter (isMatchRoot pat g)).map
        (fun q => TreeNode.mk q.1 pat.rootPos (addChildren pat g q.1)) from rfl,
      List.mem_map] at hm
    obtain ⟨q, hq, rfl⟩ := hm
    have hc' : c ∈ addChildren pat g q.1 := hc
    rw [show addChildren pat g q.1 = ((g.edges.filter fun e =>
        e.src == q.1 && edgeMatches pat g e).map fun e =>
          TreeNode.mk e.dst pat.childPos []) from rfl, List.mem_map] at hc'
    obtain ⟨e, he, rfl⟩ := hc'
    rfl

/-- Witness for claim C5 on the spec's round-trip example. -/
theorem claim5_witness :
    (0, sentenceMatches examplePattern
        (([exampleGraph] : List SentenceGraph).get ⟨0, by decide⟩))
      ∈ findPattern examplePattern ([exampleGraph].map some) :=
  (claim5_pattern_matcher_matches examplePattern [exampleGraph] (by decide)).2.1 0
    (by decide) (List.cons_ne_nil _ _)

/-- Claim C6: on any graph the builder produces, the matches are ordered by
the root's token position and the children of each match tree are ordered
by their token position. -/
theorem claim6_match_ordering (pat : PatternSpec) (s : Sentence) (g : SentenceGraph)
    (hg : makeGraph s = some g) :
    ((sentenceMatches pat g).map TreeNode.node_id).Pairwise (· < ·)
    ∧ ∀ m ∈ sentenceMatches pat g, (m.children.map TreeNode.node_id).Pairwise (· < ·) := by
  have hnodes := makeGraph_nodes_sorted s g hg
  have hedges := makeGraph_edges_sorted s g hg
  constructor
  · show (((g.nodes.filter (isMatchRoot pat g)).map fun q =>
        TreeNode.mk q.1 pat.rootPos (addChildren pat g q.1)).map
          TreeNode.node_id).Pairwise (· < ·)
    rw [List.map_map]
    have hcomp : (TreeNode.node_id ∘ fun q : Nat × Option String =>
        TreeNode.mk q.1 pat.rootPos (addChildren pat g q.1)) = Prod.fst := rfl
    rw [hcomp]
    rw [List.pairwise_map] at hnodes ⊢
    exact hnodes.filter _
  · intro m hm
    rw [show sentenceMatches pat g = (g.nodes.filter (isMatchRoot pat g)).map
        (fun q => TreeNode.mk q.1 pat.rootPos (addChildren pat g q.1)) from rfl,
      List.mem_map] at hm
    obtain ⟨q, hq, rfl⟩ := hm
    show (((g.edges.filter fun e => e.src == q.1 && edgeMatches pat g e).map fun e =>
        TreeNode.mk e.dst pat.childPos []).map TreeNode.node_id).Pairwise (· < ·)
    rw [List.map_map]
    have hcomp : (TreeNode.node_id ∘ fun e : Edge =>
        TreeNode.mk e.dst pat.childPos []) = Edge.dst := rfl
    rw [hcomp]
    rw [List.pairwise_map] at hedges ⊢
    exact hedges.filter _

/-- Witness for claim C6 on the round-trip example graph. -/
theorem claim6_witness :
    ((sentenceMatches examplePattern exampleGraph).map TreeNode.node_id).Pairwise (· < ·) :=
  (claim6_match_ordering examplePattern exampleSentence exampleGraph rfl).1

/-- Claim C7: a sentence holding a token with an out-of-range head does not
make the pipeline fail: its slot is empty, its index is recorded as
skipped, no entry for it appears in the match mapping, and every
well-formed sentence of the document still receives its graph. -/
theorem claim7_malformed_sentence_skipped (doc : AnnotatedDocument) (pat : PatternSpec)
    (i : Nat) (hi : i < doc.length) (t : Token) (ht : t ∈ doc.get ⟨i, hi⟩)
    (hhead : (doc.get ⟨i, hi⟩).length < t.head) :
    (makeGraphs doc)[i]? = some none
    ∧ i ∈ skippedSentences doc
    ∧ (∀ ms, (i, ms) ∉ findPattern pat (makeGraphs doc))
    ∧ (∀ j (hj : j < doc.length), sentenceWellFormed (doc.get ⟨j, hj⟩) = true →
        ∃ g, (makeGraphs doc)[j]? = some (some g)) := by
  have hwf : sentenceWellFormed (doc.get ⟨i, hi⟩) = false := by
    unfold sentenceWellFormed
    apply List.all_eq_false.mpr
    exact ⟨t, ht, by simp only [decide_eq_true_eq]; omega⟩
  have hslot : (makeGraphs doc)[i]? = some none := by
    rw [makeGraphs_getElem? doc i hi, makeGraph_eq_none _ hwf]
  refine ⟨hslot, ?_, ?_, ?_⟩
  · unfold skippedSentences
    rw [List.mem_filterMap]
    refine ⟨(i, doc.get ⟨i, hi⟩), ?_, ?_⟩
    · rw [List.mem_enum_iff_getElem?]
      simp [List.getElem?_eq_getElem hi, List.get_eq_getElem]
    · have hwf2 : sentenceWellFormed doc[i] = false := hwf
      simp [hwf2]
  · intro ms hmem
    rw [mem_findPattern_iff] at hmem
    obtain ⟨g, hg, -, -⟩ := hmem
    rw [hslot] at hg
    simp at hg
  · intro j hj hwfj
    exact ⟨_, by rw [makeGraphs_getElem? doc j hj, makeGraph_eq_some _ hwfj]⟩

/-- Witness for claim C7: a document whose first sentence is malformed and
whose second is the well-formed example sentence. -/
theorem claim7_witness :
    (makeGraphs [[Token.mk "NOUN" "nsubj" 5], exampleSentence])[0]? = some none :=
  (claim7_malformed_sentence_skipped [[Token.mk "NOUN" "nsubj" 5], exampleSentence]
    examplePattern 0 (by decide) (Token.mk "NOUN" "nsubj" 5) (by decide) (by decide)).1

/-- Claim C8: the matcher reads the graph store and returns it unchanged,
so running it twice on the same graphs gives the identical mapping; in this
pure embedding the absence of mutation is definitional. -/
theorem claim8_matcher_idempotent (pat : PatternSpec) (dgs : List (Option SentenceGraph)) :
    runPatternSearch pat dgs = (dgs, findPattern pat dgs)
    ∧ (runPatternSearch pat (runPatternSearch pat dgs).1) = runPatternSearch pat dgs
    ∧ (runPatternSearch pat (runPatternSearch pat dgs).1).2 = (runPatternSearch pat dgs).2 :=
  ⟨rfl, rfl, rfl⟩

end Pipeline
